import Mathlib

/-!
Shallow embedding of the core logic of the Microsoft-API-Email repository
(`src/python_app/main.py`), covering:

* query composition from selected filter fragments
  (`execute_selected_filters`, lines 1249-1263),
* the recursive mail-folder discovery
  (`load_user_folders` lines 540-562, `_load_child_folders_recursive` lines 564-599),
* the dynamic filter builder
  (`build_filter_from_template` lines 1154-1180, `add_dynamic_filter` lines 1182-1204).

Python strings are embedded as lists of characters (`Str`) where the claims
require parsing or substring reasoning, and as Lean `String` elsewhere.
-/

/-- Python strings, embedded as lists of characters for the query logic. -/
abbrev Str := List Char

/-- `s.lstrip('?')`: drop every leading question mark (main.py line 1251). -/
def stripLeadingQ (s : Str) : Str := s.dropWhile (fun c => c == '?')

/-- Python substring containment `pat in s` (main.py line 1254). -/
def containsSub (pat : Str) : Str → Bool
  | [] => pat.isPrefixOf []
  | c :: cs => pat.isPrefixOf (c :: cs) || containsSub pat cs

/-- The literal checked by the code: `'$top=' in filter_str`. -/
def topKey : Str := "$top=".toList

/-- `has_top_param = any('$top=' in filter_str for filter_str in selected_filters)`
(main.py line 1254). -/
def hasTopParam (selected : List Str) : Bool :=
  selected.any (fun f => containsSub topKey f)

/-- Python `"&".join(parts)` (main.py line 1251). -/
def joinAmp : List Str → Str
  | [] => []
  | [f] => f
  | f :: fs => f ++ '&' :: joinAmp fs

/-- The query text placed after the single `?` by `execute_selected_filters`
(main.py lines 1249-1263): join the fragments stripped of leading `?` with `&`,
append `&$top=100` when no fragment contains `$top=`; with no selected fragments
the query text is `$top=100`. -/
def composeQueryString (selected : List Str) : Str :=
  if selected.isEmpty then "$top=100".toList
  else
    let combined := joinAmp (selected.map stripLeadingQ)
    if hasTopParam selected then combined else combined ++ '&' :: "$top=100".toList

/-- `full_url = f"{base_url}?{combined_filters}"` resp. `f"{base_url}?$top=100"`
(main.py lines 1260 and 1263): the composed query appended to the base URL. -/
def composeQuery (baseUrl : Str) (selected : List Str) : Str :=
  baseUrl ++ '?' :: composeQueryString selected

/-- Modelled from the spec's words (section 4.2 Composition), to be compared with
`composeQuery` from the source: strip any leading `?` from each fragment, join
with `&` after a single `?`, append `&$top=100` when no fragment contains a
`$top=` key; for the empty fragment list the composed query is exactly
`?$top=100`. -/
def composeQuerySpec (baseUrl : Str) (selected : List Str) : Str :=
  if selected = [] then baseUrl ++ "?$top=100".toList
  else
    baseUrl ++ '?' :: (joinAmp (selected.map stripLeadingQ) ++
      (if selected.any (fun f => containsSub topKey f) then [] else '&' :: "$top=100".toList))

/-- Analysis helper (not from the source): split a query string on `&` into its
top-level segments. -/
def splitAmp : Str → List Str
  | [] => [[]]
  | c :: cs =>
    if c = '&' then [] :: splitAmp cs
    else
      match splitAmp cs with
      | [] => [[c]]
      | s :: ss => (c :: s) :: ss

/-- Analysis helper: the number of top-level `$top=` parameters of a query text
(segments between `&` separators that start with `$top=`). -/
def topCount (q : Str) : Nat :=
  ((splitAmp q).filter (fun seg => topKey.isPrefixOf seg)).length

/-- A fragment that merely mentions `$top=` inside a `$search` value without
setting a top-level `$top` parameter. -/
def searchTopFragment : Str := "?$search=x$top=y".toList

/-- A raw folder as returned by the remote system: the fields the resolver reads
(`id`, `displayName`). -/
structure RawFolder where
  id : String
  displayName : String
deriving DecidableEq, Repr

/-- A folder record as stored in `self.user_folders`: remote fields plus the
annotations added by the resolver (`parentId`, `depth`, `hierarchyName`). -/
structure FolderRecord where
  id : String
  displayName : String
  parentId : Option String
  depth : Nat
  hierarchyName : String
deriving DecidableEq, Repr

/-- The child record built at main.py lines 579-593: `parentId` is the parent's
id, `depth` is the recursion depth plus one, and `hierarchyName` is the parent's
`hierarchyName` joined with the child's `displayName` by `/`. -/
def childRecord (parent : FolderRecord) (depth : Nat) (c : RawFolder) : FolderRecord :=
  { id := c.id, displayName := c.displayName, parentId := some parent.id,
    depth := depth + 1,
    hierarchyName := parent.hierarchyName ++ "/" ++ c.displayName }

/-- A top-level record as annotated at main.py lines 552-557: `depth = 0` and
`hierarchyName = displayName`. -/
def topRecord (t : RawFolder) : FolderRecord :=
  { id := t.id, displayName := t.displayName, parentId := none, depth := 0,
    hierarchyName := t.displayName }

/-- `_load_child_folders_recursive` (main.py lines 564-599).  The remote
child-folder call is the capability `fetch`; `none` models both a raised network
error (caught at line 598) and a non-ok HTTP response (line 576), either of which
abandons the branch without emitting records.  Totality holds by construction:
the measure `maxDepth - depth` decreases at every recursive call, mirroring the
`depth >= max_depth` guard at line 566. -/
def load_child_folders_recursive (fetch : String → Option (List RawFolder))
    (parent : FolderRecord) (depth maxDepth : Nat) : List FolderRecord :=
  if depth ≥ maxDepth then []
  else
    match fetch parent.id with
    | none => []
    | some children =>
      children.flatMap (fun c =>
        childRecord parent depth c ::
          load_child_folders_recursive fetch (childRecord parent depth c) (depth + 1) maxDepth)
termination_by maxDepth - depth
decreasing_by omega

/-- The records contributed by one fetched child: the child's record followed by
the recursive expansion of its own subtree (main.py lines 593-596). -/
def expand_child (fetch : String → Option (List RawFolder)) (parent : FolderRecord)
    (depth maxDepth : Nat) (c : RawFolder) : List FolderRecord :=
  childRecord parent depth c ::
    load_child_folders_recursive fetch (childRecord parent depth c) (depth + 1) maxDepth

/-- The records contributed by one top-level folder: its own record followed by
its recursive expansion (main.py lines 552-558). -/
def top_block (fetch : String → Option (List RawFolder)) (maxDepth : Nat)
    (t : RawFolder) : List FolderRecord :=
  topRecord t :: load_child_folders_recursive fetch (topRecord t) 0 maxDepth

/-- `load_user_folders` (main.py lines 540-562): each top-level folder is
annotated with depth 0 and its own name as hierarchy path, appended, and then
recursively expanded.  The Python call site uses the default `max_depth = 10`;
the bound is kept as a parameter. -/
def load_user_folders (fetch : String → Option (List RawFolder))
    (tops : List RawFolder) (maxDepth : Nat) : List FolderRecord :=
  tops.flatMap (top_block fetch maxDepth)

/-- A remote system that reports the top-level folder `A` as its own child:
fetching the children of `A` returns `A` again. -/
def cyclicFetch (fid : String) : Option (List RawFolder) :=
  if fid = "A" then some [{ id := "A", displayName := "A" }] else none

/-- A one-folder remote system used in concrete runs. -/
def rawA : RawFolder := { id := "A", displayName := "A" }

/-- Concrete folders for the failed-fetch scenario: parent `P` with children
`B`, `F`, `C`. -/
def rawP : RawFolder := { id := "P", displayName := "P" }

/-- Sibling resolved before the failing folder. -/
def rawB : RawFolder := { id := "B", displayName := "B" }

/-- Sibling resolved after the failing folder. -/
def rawC : RawFolder := { id := "C", displayName := "C" }

/-- The folder whose child-fetch fails. -/
def rawF : RawFolder := { id := "F", displayName := "F" }

/-- A remote system where fetching the children of `F` fails while its siblings
`B` and `C` answer successfully (with no children). -/
def fetchW (fid : String) : Option (List RawFolder) :=
  if fid = "P" then some [rawB, rawF, rawC]
  else if fid = "B" then some []
  else if fid = "C" then some []
  else none

/-- The output list resolves parent references from left to right: each record's
`parentId` (when present) is the id of a record that appears strictly earlier.
`avail` collects the ids of the records already emitted. -/
def parentsResolved (avail : List String) : List FolderRecord → Prop
  | [] => True
  | r :: rest =>
    (∀ pid, r.parentId = some pid → pid ∈ avail) ∧ parentsResolved (r.id :: avail) rest

/-- Well-formedness of one record relative to the records emitted before it: a
record without a parent is top-level (`depth = 0`, `hierarchyName =
displayName`); a record with a parent id is derived from some earlier record
with that id (`depth` one more, `hierarchyName` extended by `/displayName`). -/
def recordOk (avail : List FolderRecord) (r : FolderRecord) : Prop :=
  match r.parentId with
  | none => r.depth = 0 ∧ r.hierarchyName = r.displayName
  | some pid => ∃ p ∈ avail, p.id = pid ∧ r.depth = p.depth + 1 ∧
      r.hierarchyName = p.hierarchyName ++ "/" ++ r.displayName

/-- Left-to-right well-formedness of the resolver output: every record is
well-formed relative to the records that appear before it.  `avail` collects the
records already emitted. -/
def recordsWf (avail : List FolderRecord) : List FolderRecord → Prop
  | [] => True
  | r :: rest => recordOk avail r ∧ recordsWf (r :: avail) rest

/-- The folder tree discovered through `fetch`, as a forest of rose trees. -/
inductive FolderTree where
  | node (rec : FolderRecord) (children : List FolderTree)

mutual

/-- Depth-first pre-order flattening of one tree: the node's record immediately
followed by the records of its descendants. -/
def flattenPre : FolderTree → List FolderRecord
  | .node r cs => r :: flattenForest cs

/-- Depth-first pre-order flattening of a forest, siblings kept in order. -/
def flattenForest : List FolderTree → List FolderRecord
  | [] => []
  | t :: ts => flattenPre t ++ flattenForest ts

end

/-- The forest of descendants of `parent` discovered through `fetch` with the
given fuel (`maxDepth - depth` in the source), siblings in fetch order. -/
def discoverForest (fetch : String → Option (List RawFolder)) (parent : FolderRecord)
    (depth : Nat) : Nat → List FolderTree
  | 0 => []
  | fuel + 1 =>
    match fetch parent.id with
    | none => []
    | some children =>
      children.map (fun c =>
        .node (childRecord parent depth c)
          (discoverForest fetch (childRecord parent depth c) (depth + 1) fuel))

/-- One piece of a filter template: literal text or a named placeholder
(`\x7bname\x7d` in the Python template strings). -/
inductive TmplPart where
  | lit (s : String)
  | ph (name : String)
deriving DecidableEq

/-- A filter template, e.g. `?$top=\x7bnumber\x7d` is
`[.lit "?$top=", .ph "number"]`. -/
abbrev Template := List TmplPart

/-- A collected input value held in `filter_vars`: a `tk.StringVar`-like text
value, or the ordered checkbox dictionary of a multiselect filter. -/
inductive FVal where
  | str (s : String)
  | boxes (l : List (String × Bool))
deriving DecidableEq

/-- The `tk.StringVar`/`tk.BooleanVar` entries of `filter_vars`, as the keyword
arguments passed to `template.format(**replacements)` (main.py lines 1176-1180). -/
def strReplacements (filterVars : List (String × FVal)) : List (String × String) :=
  filterVars.filterMap (fun p => match p.2 with | .str s => some (p.1, s) | _ => none)

/-- Python `template.format(**repl)`: every placeholder must be bound or the call
fails (KeyError), literals pass through. -/
def renderFormat (template : Template) (repl : List (String × String)) : Option String :=
  match template with
  | [] => some ""
  | .lit s :: rest => (renderFormat rest repl).map (fun r => s ++ r)
  | .ph n :: rest =>
    match List.lookup n repl, renderFormat rest repl with
    | some v, some r => some (v ++ r)
    | _, _ => none

/-- The template's raw text, placeholders kept in their `\x7bname\x7d` form. -/
def rawTemplate (template : Template) : String :=
  match template with
  | [] => ""
  | .lit s :: rest => s ++ rawTemplate rest
  | .ph n :: rest => "\x7b" ++ n ++ "\x7d" ++ rawTemplate rest

/-- The compound branch's chain of `result.replace("\x7bname\x7d", value)` calls
(main.py lines 1167-1173): placeholders bound to a text value are substituted,
all others are left untouched. -/
def renderReplace (template : Template) (filterVars : List (String × FVal)) : String :=
  match template with
  | [] => ""
  | .lit s :: rest => s ++ renderReplace rest filterVars
  | .ph n :: rest =>
    (match List.lookup n filterVars with
     | some (.str v) => v
     | _ => "\x7b" ++ n ++ "\x7d") ++ renderReplace rest filterVars

/-- `[field for field, var in checkbox_vars.items() if var.get()]` (main.py line
1163): the checked option names, in insertion order. -/
def selectedFields (boxes : List (String × Bool)) : List String :=
  (boxes.filter (fun p => p.2)).map (fun p => p.1)

/-- `build_filter_from_template` (main.py lines 1154-1180).  `filterType` is
`config.get("type", "text")`; `none` models a raised exception (a `format`
KeyError for an unbound placeholder).  The `number` branch is the final `else`:
the collected text is substituted verbatim, with no integer conversion and no
`min`/`max` check. -/
def build_filter_from_template (template : Template) (filterVars : List (String × FVal))
    (filterType : String) : Option String :=
  if filterType = "static" then
    some (rawTemplate template)
  else if filterType = "multiselect" then
    let selected :=
      match List.lookup "fields" filterVars with
      | some (.boxes l) => selectedFields l
      | _ => []
    let selected := if selected = [] then ["id"] else selected
    renderFormat template [("fields", String.intercalate "," selected)]
  else if filterType = "compound" then
    some (renderReplace template filterVars)
  else
    renderFormat template (strReplacements filterVars)

/-- The catalog's `Limit Results` template `?$top=\x7bnumber\x7d` (main.py line
174), declared with `min: 1, max: 1000` (lines 177-178). -/
def numberTemplate : Template := [.lit "?$top=", .ph "number"]

/-- The catalog's `Select Fields` template `?$select=\x7bfields\x7d` (main.py
line 217). -/
def selectTemplate : Template := [.lit "?$select=", .ph "fields"]

/-- The effect of `add_dynamic_filter` on `self.selected_filters` (main.py lines
1182-1204): an already-present built fragment is removed (Python `list.remove`,
first occurrence), an absent one is appended. -/
def add_dynamic_filter (selected : List String) (builtFilter : String) : List String :=
  if builtFilter ∈ selected then selected.erase builtFilter
  else selected ++ [builtFilter]

theorem joinAmp_cons_cons (f g : Str) (fs : List Str) :
    joinAmp (f :: g :: fs) = f ++ '&' :: joinAmp (g :: fs) := rfl

theorem splitAmp_ne_nil (s : Str) : splitAmp s ≠ [] := by
  cases s with
  | nil => simp [splitAmp]
  | cons c cs =>
    simp only [splitAmp]
    split
    · simp
    · cases h : splitAmp cs <;> simp

theorem splitAmp_sound (s : Str) :
    ∃ s0 ss, splitAmp s = s0 :: ss ∧ s0 <+: s ∧ ∀ seg ∈ ss, seg <:+: s := by
  induction s with
  | nil => exact ⟨[], [], rfl, List.nil_prefix, by simp⟩
  | cons c cs ih =>
    obtain ⟨s0, ss, hsplit, hpre, hinf⟩ := ih
    by_cases hc : c = '&'
    · refine ⟨[], splitAmp cs, by simp [splitAmp, hc], List.nil_prefix, ?_⟩
      intro seg hseg
      rw [hsplit] at hseg
      rcases List.mem_cons.1 hseg with rfl | hseg
      · exact List.IsInfix.trans (List.IsPrefix.isInfix hpre) (List.infix_cons (List.infix_refl cs))
      · exact List.IsInfix.trans (hinf seg hseg) (List.infix_cons (List.infix_refl cs))
    · refine ⟨c :: s0, ss, ?_, ?_, ?_⟩
      · simp [splitAmp, hc, hsplit]
      · exact List.cons_prefix_cons.2 ⟨rfl, hpre⟩
      · intro seg hseg
        exact List.IsInfix.trans (hinf seg hseg) (List.infix_cons (List.infix_refl cs))

theorem infix_of_mem_splitAmp {seg s : Str} (h : seg ∈ splitAmp s) : seg <:+: s := by
  obtain ⟨s0, ss, hsplit, hpre, hinf⟩ := splitAmp_sound s
  rw [hsplit] at h
  rcases List.mem_cons.1 h with rfl | h
  · exact List.IsPrefix.isInfix hpre
  · exact hinf seg h

theorem splitAmp_append_amp (xs ys : Str) :
    splitAmp (xs ++ '&' :: ys) = splitAmp xs ++ splitAmp ys := by
  induction xs with
  | nil => simp [splitAmp]
  | cons c cs ih =>
    by_cases hc : c = '&'
    · simp [splitAmp, hc, ih]
    · obtain ⟨s0, ss, hsplit, -, -⟩ := splitAmp_sound cs
      simp only [List.cons_append, splitAmp, if_neg hc, List.append_eq]
      rw [ih, hsplit]
      simp

theorem containsSub_eq_true_iff (pat s : Str) : containsSub pat s = true ↔ pat <:+: s := by
  induction s with
  | nil =>
    simp only [containsSub]
    rw [List.isPrefixOf_iff_prefix]
    constructor
    · intro h
      exact List.IsPrefix.isInfix h
    · intro h
      simp [List.eq_nil_of_infix_nil h]
  | cons c cs ih =>
    simp only [containsSub, Bool.or_eq_true, List.isPrefixOf_iff_prefix, ih]
    exact (List.infix_cons_iff).symm

theorem noTop_filter_nil {f : Str} (h : containsSub topKey f = false) :
    (splitAmp (stripLeadingQ f)).filter (fun seg => topKey.isPrefixOf seg) = [] := by
  rw [List.filter_eq_nil_iff]
  intro seg hseg hpref
  have h1 : topKey <+: seg := List.isPrefixOf_iff_prefix.1 hpref
  have h2 : seg <:+: stripLeadingQ f := infix_of_mem_splitAmp hseg
  have h3 : stripLeadingQ f <:+ f := List.dropWhile_suffix _
  have h4 : topKey <:+: f :=
    List.IsInfix.trans (List.IsPrefix.isInfix h1)
      (List.IsInfix.trans h2 (List.IsSuffix.isInfix h3))
  rw [← containsSub_eq_true_iff] at h4
  simp [h4] at h

theorem joinAmp_noTop : ∀ (fs : List Str), (∀ f ∈ fs, containsSub topKey f = false) →
    (splitAmp (joinAmp (fs.map stripLeadingQ))).filter (fun seg => topKey.isPrefixOf seg) = []
  | [], _ => by decide
  | [f], h => by simpa [joinAmp] using noTop_filter_nil (h f (by simp))
  | f :: g :: fs, h => by
    have hf := noTop_filter_nil (h f (by simp))
    have ih := joinAmp_noTop (g :: fs) (fun x hx => h x (List.mem_cons_of_mem _ hx))
    simp only [List.map_cons, joinAmp_cons_cons]
    rw [splitAmp_append_amp, List.filter_append, hf]
    simpa using ih

theorem load_child_stop (fetch : String → Option (List RawFolder)) (parent : FolderRecord)
    {depth maxDepth : Nat} (h : maxDepth ≤ depth) :
    load_child_folders_recursive fetch parent depth maxDepth = [] := by
  unfold load_child_folders_recursive
  simp [h]

theorem load_child_fail (fetch : String → Option (List RawFolder)) (parent : FolderRecord)
    {depth maxDepth : Nat} (h : fetch parent.id = none) :
    load_child_folders_recursive fetch parent depth maxDepth = [] := by
  unfold load_child_folders_recursive
  rw [h]
  simp

theorem load_child_go (fetch : String → Option (List RawFolder)) (parent : FolderRecord)
    {depth maxDepth : Nat} (hd : depth < maxDepth)
    {cs : List RawFolder} (h : fetch parent.id = some cs) :
    load_child_folders_recursive fetch parent depth maxDepth
      = cs.flatMap (expand_child fetch parent depth maxDepth) := by
  unfold load_child_folders_recursive
  rw [if_neg (by omega), h]
  rfl

theorem load_child_depth_le (fetch : String → Option (List RawFolder)) :
    ∀ (k : Nat) (parent : FolderRecord) (depth maxDepth : Nat), maxDepth - depth ≤ k →
      ∀ r ∈ load_child_folders_recursive fetch parent depth maxDepth, r.depth ≤ maxDepth := by
  intro k
  induction k with
  | zero =>
    intro parent depth maxDepth hk r hr
    rw [load_child_stop fetch parent (by omega)] at hr
    cases hr
  | succ k ih =>
    intro parent depth maxDepth hk r hr
    by_cases hd : depth < maxDepth
    · cases hfetch : fetch parent.id with
      | none =>
        rw [load_child_fail fetch parent hfetch] at hr
        cases hr
      | some cs =>
        rw [load_child_go fetch parent hd hfetch] at hr
        obtain ⟨c, hc, hr'⟩ := List.mem_flatMap.1 hr
        simp only [expand_child] at hr'
        rcases List.mem_cons.1 hr' with rfl | hr''
        · simp only [childRecord]
          omega
        · exact ih (childRecord parent depth c) (depth + 1) maxDepth (by omega) r hr''
    · rw [load_child_stop fetch parent (by omega)] at hr
      cases hr

theorem recordOk_mono {avail avail' : List FolderRecord} (hsub : avail ⊆ avail')
    {r : FolderRecord} (h : recordOk avail r) : recordOk avail' r := by
  rcases hp : r.parentId with _ | pid
  · simpa [recordOk, hp] using h
  · simp only [recordOk, hp] at h ⊢
    obtain ⟨p, hpmem, hrest⟩ := h
    exact ⟨p, hsub hpmem, hrest⟩

theorem recordsWf_mono : ∀ (l : List FolderRecord) (avail avail' : List FolderRecord),
    avail ⊆ avail' → recordsWf avail l → recordsWf avail' l := by
  intro l
  induction l with
  | nil => intro _ _ _ _; trivial
  | cons r rest ih =>
    intro avail avail' hsub h
    exact ⟨recordOk_mono hsub h.1, ih _ _ (List.cons_subset_cons r hsub) h.2⟩

theorem recordsWf_append : ∀ (l1 avail l2 : List FolderRecord),
    recordsWf avail l1 → recordsWf (l1.reverse ++ avail) l2 → recordsWf avail (l1 ++ l2) := by
  intro l1
  induction l1 with
  | nil => intro avail l2 _ h2; simpa using h2
  | cons r rest ih =>
    intro avail l2 h1 h2
    refine ⟨h1.1, ih (r :: avail) l2 h1.2 ?_⟩
    apply recordsWf_mono _ _ _ _ h2
    intro x hx
    simp only [List.reverse_cons, List.append_assoc, List.mem_append, List.mem_cons,
      List.mem_singleton] at hx ⊢
    tauto

theorem recordsWf_load_child (fetch : String → Option (List RawFolder)) :
    ∀ (k : Nat) (parent : FolderRecord) (depth maxDepth : Nat) (avail : List FolderRecord),
      maxDepth - depth ≤ k → parent ∈ avail → parent.depth = depth →
      recordsWf avail (load_child_folders_recursive fetch parent depth maxDepth) := by
  intro k
  induction k with
  | zero =>
    intro parent depth maxDepth avail hk _ _
    rw [load_child_stop fetch _ (by omega)]
    trivial
  | succ k ih =>
    intro parent depth maxDepth avail hk hmem hdep
    by_cases hd : depth < maxDepth
    · cases hfetch : fetch parent.id with
      | none =>
        rw [load_child_fail fetch _ hfetch]
        trivial
      | some cs =>
        rw [load_child_go fetch _ hd hfetch]
        have main : ∀ (cs' : List RawFolder) (avail' : List FolderRecord), parent ∈ avail' →
            recordsWf avail' (cs'.flatMap (expand_child fetch parent depth maxDepth)) := by
          intro cs'
          induction cs' with
          | nil => intro _ _; trivial
          | cons c cs'' ihc =>
            intro avail' hmem'
            rw [List.flatMap_cons]
            apply recordsWf_append
            · refine ⟨⟨parent, hmem', rfl, ?_, ?_⟩, ?_⟩
              · simp [childRecord, hdep]
              · simp [childRecord]
              · exact ih (childRecord parent depth c) (depth + 1) maxDepth _ (by omega)
                  (List.mem_cons_self _ _) (by simp [childRecord])
            · refine ihc _ ?_
              simp [hmem']
        exact main cs avail hmem
    · rw [load_child_stop fetch _ (by omega)]
      trivial

theorem recordsWf_load_user (fetch : String → Option (List RawFolder)) (maxDepth : Nat) :
    ∀ (tops : List RawFolder) (avail : List FolderRecord),
      recordsWf avail (load_user_folders fetch tops maxDepth) := by
  intro tops
  induction tops with
  | nil => intro _; trivial
  | cons t ts ih =>
    intro avail
    show recordsWf avail ((t :: ts).flatMap (top_block fetch maxDepth))
    rw [List.flatMap_cons]
    apply recordsWf_append
    · refine ⟨?_, ?_⟩
      · exact ⟨rfl, rfl⟩
      · exact recordsWf_load_child fetch maxDepth (topRecord t) 0 maxDepth _ (by omega)
          (List.mem_cons_self _ _) rfl
    · exact ih _

theorem parentsResolved_of_recordsWf : ∀ (l avail : List FolderRecord),
    recordsWf avail l → parentsResolved (avail.map FolderRecord.id) l := by
  intro l
  induction l with
  | nil => intro _ _; trivial
  | cons r rest ih =>
    intro avail h
    refine ⟨?_, ?_⟩
    · intro pid hpid
      have h1 := h.1
      simp only [recordOk, hpid] at h1
      obtain ⟨p, hp, hpe, -⟩ := h1
      exact List.mem_map.2 ⟨p, hp, hpe⟩
    · simpa using ih (r :: avail) h.2

theorem flatMap_congr_mem {α β : Type} {f g : α → List β} :
    ∀ (l : List α), (∀ a ∈ l, f a = g a) → l.flatMap f = l.flatMap g := by
  intro l
  induction l with
  | nil => intro _; rfl
  | cons a l ih =>
    intro h
    rw [List.flatMap_cons, List.flatMap_cons, h a (by simp), ih (fun x hx => h x (by simp [hx]))]

theorem flattenForest_map {α : Type} (g : α → FolderTree) : ∀ (cs : List α),
    flattenForest (cs.map g) = cs.flatMap (fun c => flattenPre (g c)) := by
  intro cs
  induction cs with
  | nil => rfl
  | cons c cs ih => rw [List.map_cons, flattenForest, ih, List.flatMap_cons]

theorem load_child_eq_flatten (fetch : String → Option (List RawFolder)) :
    ∀ (k : Nat) (parent : FolderRecord) (depth maxDepth : Nat), maxDepth - depth = k →
      load_child_folders_recursive fetch parent depth maxDepth
        = flattenForest (discoverForest fetch parent depth k) := by
  intro k
  induction k with
  | zero =>
    intro parent depth maxDepth hk
    rw [load_child_stop fetch _ (by omega)]
    rfl
  | succ k ih =>
    intro parent depth maxDepth hk
    have hd : depth < maxDepth := by omega
    cases hfetch : fetch parent.id with
    | none =>
      rw [load_child_fail fetch _ hfetch]
      simp [discoverForest, hfetch, flattenForest]
    | some cs =>
      rw [load_child_go fetch _ hd hfetch]
      simp only [discoverForest, hfetch]
      rw [flattenForest_map]
      apply flatMap_congr_mem
      intro c _
      simp only [flattenPre, expand_child]
      rw [ih (childRecord parent depth c) (depth + 1) maxDepth (by omega)]

theorem load_user_eq_flatten (fetch : String → Option (List RawFolder))
    (tops : List RawFolder) (maxDepth : Nat) :
    load_user_folders fetch tops maxDepth
      = flattenForest (tops.map (fun t =>
          FolderTree.node (topRecord t) (discoverForest fetch (topRecord t) 0 maxDepth))) := by
  rw [flattenForest_map]
  simp only [load_user_folders]
  apply flatMap_congr_mem
  intro t _
  simp only [top_block, flattenPre]
  rw [load_child_eq_flatten fetch maxDepth (topRecord t) 0 maxDepth (by omega)]

/-- C1: for every ordered list of selected filter fragments, the query composed
by the code (base URL, `?`, the fragments stripped of leading `?` joined with
`&`, `&$top=100` appended when no fragment contains `$top=`, and exactly
`?$top=100` for the empty list) coincides with the spec's description of
`composeQuery`. -/
theorem composeQuery_matches_spec (baseUrl : Str) (selected : List Str) :
    composeQuery baseUrl selected = composeQuerySpec baseUrl selected := by
  cases selected with
  | nil =>
    have h : ("?$top=100".toList : Str) = '?' :: "$top=100".toList := by decide
    simp [composeQuery, composeQueryString, composeQuerySpec, h]
  | cons f fs =>
    simp only [composeQuery, composeQueryString, composeQuerySpec, hasTopParam,
      List.isEmpty_cons, Bool.false_eq_true, if_false, reduceCtorEq]
    split <;> simp_all

/-- C2 counterexample: with the two selected fragments `$top=5` and `$top=6` the
composed query string contains two top-level `$top` parameters, so the claimed
invariant (never more than one) fails. -/
theorem composed_query_two_top_params :
    topCount (composeQueryString ["$top=5".toList, "$top=6".toList]) = 2 := by decide

/-- C2 (amended): the code appends at most one default `$top=100`; whenever no
selected fragment contains the substring `$top=`, the composed query string
contains exactly one top-level `$top` parameter (the appended default).
Fragments that themselves carry `$top=` are joined without deduplication, so
they may contribute several. -/
theorem default_top_unique (selected : List Str)
    (h : ∀ f ∈ selected, containsSub topKey f = false) :
    topCount (composeQueryString selected) = 1 := by
  cases selected with
  | nil => decide
  | cons f fs =>
    have htop : hasTopParam (f :: fs) = false := by
      rw [hasTopParam, List.any_eq_false]
      intro x hx
      simp [h x hx]
    simp only [composeQueryString, List.isEmpty_cons, Bool.false_eq_true, if_false, htop]
    rw [topCount, splitAmp_append_amp, List.filter_append, joinAmp_noTop (f :: fs) h]
    decide

/-- C2 witness: a concrete fragment list without `$top=` composes to a query
with exactly one top-level `$top` parameter. -/
theorem default_top_unique_witness :
    topCount (composeQueryString ["?$filter=isRead eq false".toList]) = 1 :=
  default_top_unique _ (by decide)

/-- C3 counterexample: under a fetch capability that reports the top-level
folder `A` as its own child, the resolver output contains the id `A` twice, so
the claimed no-duplicate-id guarantee fails for adversarial fetch behaviour. -/
theorem duplicate_id_on_cyclic_fetch :
    ¬ ((load_user_folders cyclicFetch [rawA] 1).map FolderRecord.id).Nodup := by
  have e : load_user_folders cyclicFetch [rawA] 1
      = [topRecord rawA, childRecord (topRecord rawA) 0 rawA] := by
    simp only [load_user_folders, List.flatMap_cons, List.flatMap_nil, List.append_nil, top_block]
    rw [load_child_go cyclicFetch _ (by omega)
      (show cyclicFetch (topRecord rawA).id = some [rawA] from rfl)]
    simp only [List.flatMap_cons, List.flatMap_nil, expand_child, List.append_nil]
    rw [load_child_stop cyclicFetch _ (by omega)]
  rw [e]
  decide

/-- C3 (amended): for every fetch behaviour every non-top-level record's
`parentId` is the id of a record that appears strictly earlier in the output
list; the no-duplicate-id half of the claim holds only for remotes that never
repeat an id (the counterexample shows a cyclic remote produces duplicates). -/
theorem parent_precedes_child (fetch : String → Option (List RawFolder))
    (tops : List RawFolder) (maxDepth : Nat) :
    parentsResolved [] (load_user_folders fetch tops maxDepth) := by
  have h := parentsResolved_of_recordsWf (load_user_folders fetch tops maxDepth) []
    (recordsWf_load_user fetch maxDepth tops [])
  simpa using h

/-- C4: the resolver never expands a folder at depth at or beyond `maxDepth`
(the guard returns the empty expansion), and consequently every emitted record's
depth is bounded by `maxDepth`; termination itself holds by construction, the
measure `maxDepth - depth` decreasing at each recursive call. -/
theorem depth_guard_bounds_walk :
    (∀ (fetch : String → Option (List RawFolder)) (parent : FolderRecord)
        (depth maxDepth : Nat), maxDepth ≤ depth →
        load_child_folders_recursive fetch parent depth maxDepth = [])
    ∧ (∀ (fetch : String → Option (List RawFolder)) (tops : List RawFolder) (maxDepth : Nat),
        ∀ r ∈ load_user_folders fetch tops maxDepth, r.depth ≤ maxDepth) := by
  constructor
  · intro fetch parent depth maxDepth h
    exact load_child_stop fetch parent h
  · intro fetch tops maxDepth r hr
    simp only [load_user_folders] at hr
    obtain ⟨t, ht, hr'⟩ := List.mem_flatMap.1 hr
    simp only [top_block] at hr'
    rcases List.mem_cons.1 hr' with rfl | hr''
    · simp [topRecord]
    · exact load_child_depth_le fetch maxDepth (topRecord t) 0 maxDepth (by omega) r hr''

/-- C4 witness: a concrete expansion at depth 5 with bound 3 is empty, and the
record of a concrete run is within the bound 0. -/
theorem depth_guard_bounds_walk_witness :
    load_child_folders_recursive (fun _ => none) (topRecord rawA) 5 3 = []
    ∧ (topRecord rawA).depth ≤ 0 := by
  constructor
  · exact depth_guard_bounds_walk.1 (fun _ => none) (topRecord rawA) 5 3 (by omega)
  · apply depth_guard_bounds_walk.2 (fun _ => none) [rawA] 0 (topRecord rawA)
    have e : load_user_folders (fun _ => none) [rawA] 0 = [topRecord rawA] := by
      simp only [load_user_folders, List.flatMap_cons, List.flatMap_nil, List.append_nil,
        top_block]
      rw [load_child_stop (fun _ => none) _ (by omega)]
    rw [e]
    exact List.mem_cons_self _ _

/-- C5: every record of the resolver output satisfies the hierarchy invariants
(a top-level record has depth 0 and its display name as hierarchy path; every
other record extends some earlier record's path by `/displayName` with depth one
more), and the output is exactly the depth-first pre-order flattening of the
discovered forest (each parent immediately precedes its descendants, siblings in
fetch order). -/
theorem preorder_hierarchy_invariants (fetch : String → Option (List RawFolder))
    (tops : List RawFolder) (maxDepth : Nat) :
    recordsWf [] (load_user_folders fetch tops maxDepth)
    ∧ load_user_folders fetch tops maxDepth
      = flattenForest (tops.map (fun t =>
          FolderTree.node (topRecord t) (discoverForest fetch (topRecord t) 0 maxDepth))) :=
  ⟨recordsWf_load_user fetch maxDepth tops [], load_user_eq_flatten fetch tops maxDepth⟩

/-- C7: when fetching the children of folder `F` fails, the expansion of `F`
itself is empty (the branch is abandoned, no error escapes: the function is
total), and in the surrounding expansion the output still contains `F`'s record
between the full subtrees of its earlier and later siblings. -/
theorem failed_fetch_partial_result (fetch : String → Option (List RawFolder))
    (parent : FolderRecord) (depth maxDepth : Nat) (cs1 cs2 : List RawFolder) (f : RawFolder)
    (hd : depth < maxDepth)
    (hcs : fetch parent.id = some (cs1 ++ f :: cs2))
    (hf : fetch (childRecord parent depth f).id = none) :
    load_child_folders_recursive fetch parent depth maxDepth
      = cs1.flatMap (expand_child fetch parent depth maxDepth)
        ++ childRecord parent depth f
          :: cs2.flatMap (expand_child fetch parent depth maxDepth) := by
  rw [load_child_go fetch parent hd hcs, List.flatMap_append, List.flatMap_cons]
  rw [show expand_child fetch parent depth maxDepth f = [childRecord parent depth f] by
    simp only [expand_child]
    rw [load_child_fail fetch _ hf]]
  simp

/-- C7 witness: with children `B`, `F`, `C` of `P` and the fetch for `F`
failing, the run yields `B`'s subtree, then `F` alone, then `C`'s subtree. -/
theorem failed_fetch_partial_result_witness :
    load_child_folders_recursive fetchW (topRecord rawP) 0 2
      = [childRecord (topRecord rawP) 0 rawB, childRecord (topRecord rawP) 0 rawF,
         childRecord (topRecord rawP) 0 rawC] := by
  rw [failed_fetch_partial_result fetchW (topRecord rawP) 0 2 [rawB] [rawC] rawF
    (by omega) (by decide) (by decide)]
  simp only [List.flatMap_cons, List.flatMap_nil, expand_child, List.append_nil]
  rw [load_child_go fetchW _ (by omega)
      (show fetchW (childRecord (topRecord rawP) 0 rawB).id = some [] from by decide),
    load_child_go fetchW _ (by omega)
      (show fetchW (childRecord (topRecord rawP) 0 rawC).id = some [] from by decide)]
  simp

/-- C6: the claim requires `buildFilter` for a `number` filter with declared
bounds to fail with `FilterBuildError` on a non-integer or out-of-range value;
the code's `number` branch substitutes the collected text verbatim with no
validation, so the catalog's `Limit Results` filter (`min` 1, `max` 1000)
accepts `abc` and the below-minimum `0` without error. -/
theorem number_filter_not_validated :
    build_filter_from_template numberTemplate [("number", FVal.str "abc")] "number"
      = some "?$top=abc"
    ∧ build_filter_from_template numberTemplate [("number", FVal.str "0")] "number"
      = some "?$top=0" :=
  ⟨rfl, rfl⟩

/-- C8 counterexample: toggling the already-present fragment `a` twice in the
selection `[a, b]` yields `[b, a]`, not the original collection `[a, b]`, so the
double toggle does not return the ordered collection to its original state. -/
theorem double_toggle_reorders :
    add_dynamic_filter (add_dynamic_filter ["a", "b"] "a") "a" ≠ ["a", "b"] := by decide

/-- C8 (amended): adding an already-present built fragment removes it (first
occurrence) and never reorders the remaining fragments; toggling twice a
fragment that is absent returns the collection exactly to its original state;
toggling twice a present fragment (in a duplicate-free collection) returns the
same set of fragments, the toggled one re-inserted at the end. -/
theorem toggle_set_semantics :
    (∀ (l : List String) (x : String), x ∈ l →
        add_dynamic_filter l x = l.erase x ∧ (add_dynamic_filter l x).Sublist l)
    ∧ (∀ (l : List String) (x : String), x ∉ l →
        add_dynamic_filter (add_dynamic_filter l x) x = l)
    ∧ (∀ (l : List String) (x : String), x ∈ l → l.Nodup →
        add_dynamic_filter (add_dynamic_filter l x) x = l.erase x ++ [x]
        ∧ (add_dynamic_filter (add_dynamic_filter l x) x).Perm l) := by
  refine ⟨?_, ?_, ?_⟩
  · intro l x hx
    rw [add_dynamic_filter, if_pos hx]
    exact ⟨rfl, List.erase_sublist x l⟩
  · intro l x hx
    have h1 : add_dynamic_filter l x = l ++ [x] := by
      rw [add_dynamic_filter, if_neg hx]
    rw [h1, add_dynamic_filter,
      if_pos (List.mem_append.2 (Or.inr (List.mem_singleton.2 rfl))),
      List.erase_append_right _ hx, List.erase_cons_head, List.append_nil]
  · intro l x hx hnd
    have h1 : add_dynamic_filter l x = l.erase x := by
      rw [add_dynamic_filter, if_pos hx]
    have h2 : add_dynamic_filter (l.erase x) x = l.erase x ++ [x] := by
      rw [add_dynamic_filter, if_neg hnd.not_mem_erase]
    refine ⟨by rw [h1, h2], ?_⟩
    rw [h1, h2]
    exact (List.perm_append_singleton x (l.erase x)).trans (List.perm_cons_erase hx).symm

/-- C8 witness: the three toggle behaviours at concrete selections. -/
theorem toggle_set_semantics_witness :
    add_dynamic_filter ["a", "b"] "a" = ["b"]
    ∧ add_dynamic_filter (add_dynamic_filter ["a", "b"] "c") "c" = ["a", "b"]
    ∧ add_dynamic_filter (add_dynamic_filter ["a", "b"] "a") "a" = ["b", "a"] := by
  refine ⟨?_, toggle_set_semantics.2.1 ["a", "b"] "c" (by decide), ?_⟩
  · rw [(toggle_set_semantics.1 ["a", "b"] "a" (by decide)).1]
    decide
  · rw [(toggle_set_semantics.2.2 ["a", "b"] "a" (by decide) (by decide)).1]
    decide

/-- C9: the multiselect branch of `build_filter_from_template` renders the
template with the `fields` placeholder bound to the single default field `id`
when the selection is empty, and to the selected option names joined with
commas otherwise. -/
theorem multiselect_defaults (tmpl : Template) (boxes : List (String × Bool)) :
    (selectedFields boxes = [] →
      build_filter_from_template tmpl [("fields", FVal.boxes boxes)] "multiselect"
        = renderFormat tmpl [("fields", "id")])
    ∧ (selectedFields boxes ≠ [] →
      build_filter_from_template tmpl [("fields", FVal.boxes boxes)] "multiselect"
        = renderFormat tmpl [("fields", String.intercalate "," (selectedFields boxes))]) := by
  have hid : (",".intercalate ["id"] : String) = "id" := rfl
  constructor
  · intro h
    simp [build_filter_from_template, h, hid]
  · intro h
    simp [build_filter_from_template, h]

/-- C9 witness: the catalog's `Select Fields` template with nothing checked
renders as `?$select=id`. -/
theorem multiselect_defaults_witness :
    build_filter_from_template selectTemplate
      [("fields", FVal.boxes [("subject", false), ("from", false)])] "multiselect"
      = some "?$select=id" := by
  rw [(multiselect_defaults selectTemplate [("subject", false), ("from", false)]).1 (by decide)]
  decide

/-- C10: the default-`$top` decision is substring containment, not query
parsing: the fragment `?$search=x$top=y` sets no top-level `$top` parameter,
yet because its text contains `$top=` the code appends no default, and the
composed query ends up with no top-level `$top` parameter at all. -/
theorem top_check_is_substring_containment :
    containsSub topKey searchTopFragment = true
    ∧ topCount (stripLeadingQ searchTopFragment) = 0
    ∧ composeQueryString [searchTopFragment] = stripLeadingQ searchTopFragment
    ∧ topCount (composeQueryString [searchTopFragment]) = 0 := by decide
